import Mathlib

/-!
Verification of the Ecwid → Google Sheets order sync (`ecwid_sync.py`).

A shallow embedding of the synchronization script's core logic:
Python strings that the script inspects are modelled as Lean `String`s
(ASCII), JSON records as structures with `Option` fields for keys that may be
absent or null, the paginated source API as a function from page index to the
page's order list, and the two unbounded `while` loops as fuel-indexed
recursions whose termination is the existence of sufficient fuel.
-/

namespace EcwidSync

/-! ## Python string primitives -/

/-- Model of Python `str.isdigit()` on ASCII strings: nonempty and every
character an ASCII digit.  Used by the script on the spreadsheet's
order-number column cells (`num.isdigit()`). -/
def pyIsDigit (s : String) : Bool :=
  !s.data.isEmpty && s.data.all Char.isDigit

/-- Model of Python `int(...)` applied to a digit string: its base-10 value.
Only applied by the script to strings accepted by `pyIsDigit`. -/
def pyInt (s : String) : Nat :=
  s.data.foldl (fun n c => n * 10 + (c.toNat - 48)) 0

/-- The decimal digit character for `r < 10`. -/
def digitChar (r : Nat) : Char := Char.ofNat (48 + r)

/-- Accumulates the decimal digits of `n` (most significant first) in front of
`acc`; structural recursion on a fuel bound that any `fuel ≥ n` satisfies. -/
def natToDecimalAux : Nat → Nat → List Char → List Char
  | 0, _, acc => acc
  | fuel + 1, n, acc =>
    if n = 0 then acc else natToDecimalAux fuel (n / 10) (digitChar (n % 10) :: acc)

/-- Decimal rendering of a natural number: the digit string that a numeric
cell written to the sheet reads back as through `col_values`. -/
def natToDecimal (n : Nat) : String :=
  if n = 0 then "0" else String.mk (natToDecimalAux n n [])

/-! ## Data model (JSON records from the Ecwid API) -/

/-- One selected product option of a line item: `opt.get("name")` and
`opt.get("value")`, each possibly absent/null. -/
structure SelOption where
  name : Option String
  value : Option String
deriving DecidableEq

/-- One line item of an order: `item.get("name")` and
`item.get("selectedOptions", [])` (an absent list is the empty list). -/
structure LineItem where
  name : Option String
  selectedOptions : List SelOption
deriving DecidableEq

/-- One order from the API: `order.get("orderNumber")` (a nonnegative integer
when present), `order.get("createDate")`, and `order.get("items")` (an absent
or null list is modelled as the empty list, matching the falsiness test
`if not order.get("items")`). -/
structure Order where
  orderNumber : Option Nat
  createDate : Option String
  items : List LineItem
deriving DecidableEq

/-! ## Option Normalizer (`normalize_option`) -/

/-- Tests whether `pat` is a leading run of `cs`. -/
def charsStartWith : List Char → List Char → Bool
  | [], _ => true
  | _ :: _, [] => false
  | p :: ps, c :: cs => p == c && charsStartWith ps cs

/-- Tests whether `pat` occurs contiguously somewhere in `cs` (Python `pat in s`). -/
def charsHaveSub (pat : List Char) : List Char → Bool
  | [] => pat.isEmpty
  | c :: cs => charsStartWith pat (c :: cs) || charsHaveSub pat cs

/-- Python substring containment `pat in s`. -/
def strHasSub (s pat : String) : Bool := charsHaveSub pat.data s.data

/-- The function `normalize_option` from `ecwid_sync.py`: lowercase the label, match it
against the curated keyword sets in order, otherwise replace spaces with
underscores. -/
def normalize_option (name : String) : String :=
  let n := name.toLower
  if ["color", "colour", "coloue", "colours", "cours"].any (fun x => strHasSub n x) then "color"
  else if ["size", "sizing", "sizs"].any (fun x => strHasSub n x) then "size"
  else if ["category", "caregory", "categories", "catgory"].any (fun x => strHasSub n x) then
    "category"
  else if strHasSub n "designer" then "designer_category"
  else if strHasSub n "thickness" then "thickness"
  else String.mk (n.data.map (fun c => if c = ' ' then '_' else c))

/-! ## Date Normalizer (`parse_and_standardize_date`)

`datetime.strptime` with the three fixed patterns of `ECWID_DATE_FORMATS` is
modelled by exact-width digit-field parsers over the character list; `%z` is
modelled in its canonical `±HHMM` form.  A parsed datetime is a component
record with an optional UTC-offset (`tzinfo`); `astimezone(ZoneInfo("Africa/Lagos"))`
is modelled as the fixed civil offset UTC+01:00 which that zone observes
throughout the relevant date range. -/

structure PyDateTime where
  year : Int
  month : Nat
  day : Nat
  hour : Nat
  minute : Nat
  second : Nat
  tzOffsetMinutes : Option Int
deriving DecidableEq

/-- Parse exactly `n` ASCII digits from the front of `cs`, accumulating their
base-10 value onto `acc`. -/
def parseNDigitsAux : Nat → Nat → List Char → Option (Nat × List Char)
  | 0, acc, cs => some (acc, cs)
  | n + 1, acc, c :: cs =>
    if c.isDigit then parseNDigitsAux n (acc * 10 + (c.toNat - 48)) cs else none
  | _ + 1, _, [] => none

/-- Consume one expected literal character. -/
def parseExactChar (ch : Char) : List Char → Option (List Char)
  | c :: cs => if c = ch then some cs else none
  | [] => none

def isLeapYear (y : Int) : Bool := (y % 4 == 0 && y % 100 != 0) || y % 400 == 0

def daysInMonth (y : Int) (m : Nat) : Nat :=
  if m = 2 then (if isLeapYear y then 29 else 28)
  else if m = 4 ∨ m = 6 ∨ m = 9 ∨ m = 11 then 30
  else 31

/-- Range validation performed by `strptime` on a parsed calendar date. -/
def validYmd (y : Int) (m d : Nat) : Bool :=
  1 ≤ m && m ≤ 12 && 1 ≤ d && d ≤ daysInMonth y m

/-- Range validation performed by `strptime` on a parsed time of day. -/
def validHms (h mi s : Nat) : Bool := h ≤ 23 && mi ≤ 59 && s ≤ 59

/-- Parse the leading `%Y-%m-%d` fields. -/
def parseYmdPart (cs : List Char) : Option ((Int × Nat × Nat) × List Char) := do
  let (y, cs) ← parseNDigitsAux 4 0 cs
  let cs ← parseExactChar '-' cs
  let (m, cs) ← parseNDigitsAux 2 0 cs
  let cs ← parseExactChar '-' cs
  let (d, cs) ← parseNDigitsAux 2 0 cs
  if validYmd (Int.ofNat y) m d then some ((Int.ofNat y, m, d), cs) else none

/-- Parse the `%H:%M:%S` fields. -/
def parseHmsPart (cs : List Char) : Option ((Nat × Nat × Nat) × List Char) := do
  let (h, cs) ← parseNDigitsAux 2 0 cs
  let cs ← parseExactChar ':' cs
  let (mi, cs) ← parseNDigitsAux 2 0 cs
  let cs ← parseExactChar ':' cs
  let (s2, cs) ← parseNDigitsAux 2 0 cs
  if validHms h mi s2 then some ((h, mi, s2), cs) else none

/-- Parse a `%z` UTC offset in its canonical `±HHMM` form, in minutes. -/
def parseTzPart : List Char → Option (Int × List Char)
  | c :: cs =>
    if c = '+' ∨ c = '-' then do
      let (hh, cs2) ← parseNDigitsAux 2 0 cs
      let (mm, cs3) ← parseNDigitsAux 2 0 cs2
      if hh ≤ 23 && mm ≤ 59 then
        let mins : Int := Int.ofNat (hh * 60 + mm)
        some (if c = '-' then -mins else mins, cs3)
      else none
    else none
  | [] => none

/-- Model of `strptime(s, "%Y-%m-%d %H:%M:%S %z")`. -/
def strptimeAware (s : String) : Option PyDateTime := do
  let (ymd, cs) ← parseYmdPart s.data
  let cs ← parseExactChar ' ' cs
  let (hms, cs) ← parseHmsPart cs
  let cs ← parseExactChar ' ' cs
  let (off, cs) ← parseTzPart cs
  if cs.isEmpty then
    some ⟨ymd.1, ymd.2.1, ymd.2.2, hms.1, hms.2.1, hms.2.2, some off⟩
  else none

/-- Model of `strptime(s, "%Y-%m-%d %H:%M:%S")` (offset-naive). -/
def strptimeNaive (s : String) : Option PyDateTime := do
  let (ymd, cs) ← parseYmdPart s.data
  let cs ← parseExactChar ' ' cs
  let (hms, cs) ← parseHmsPart cs
  if cs.isEmpty then
    some ⟨ymd.1, ymd.2.1, ymd.2.2, hms.1, hms.2.1, hms.2.2, none⟩
  else none

/-- Model of `strptime(s, "%Y-%m-%d")` (date only, offset-naive). -/
def strptimeDateOnly (s : String) : Option PyDateTime := do
  let (ymd, cs) ← parseYmdPart s.data
  if cs.isEmpty then some ⟨ymd.1, ymd.2.1, ymd.2.2, 0, 0, 0, none⟩ else none

/-- Days since 1970-01-01 of a proleptic-Gregorian civil date. -/
def daysFromCivil (y : Int) (m d : Nat) : Int :=
  let y2 : Int := if m ≤ 2 then y - 1 else y
  let era : Int := Int.fdiv y2 400
  let yoe : Int := y2 - era * 400
  let mp : Int := Int.ofNat ((m + 9) % 12)
  let doy : Int := (153 * mp + 2) / 5 + Int.ofNat d - 1
  let doe : Int := yoe * 365 + yoe / 4 - yoe / 100 + doy
  era * 146097 + doe - 719468

/-- Civil date of a count of days since 1970-01-01. -/
def civilFromDays (z0 : Int) : Int × Nat × Nat :=
  let z : Int := z0 + 719468
  let era : Int := Int.fdiv z 146097
  let doe : Int := z - era * 146097
  let yoe : Int := (doe - doe / 1460 + doe / 36524 - doe / 146096) / 365
  let y : Int := yoe + era * 400
  let doy : Int := doe - (365 * yoe + yoe / 4 - yoe / 100)
  let mp : Int := (5 * doy + 2) / 153
  let d : Int := doy - (153 * mp + 2) / 5 + 1
  let m : Int := mp + (if mp < 10 then 3 else -9)
  (if m ≤ 2 then y + 1 else y, m.toNat, d.toNat)

/-- Seconds since the epoch of an offset-aware datetime (`getD 0` is never
exercised: the script only converts datetimes whose `tzinfo` is set). -/
def epochSecsOf (dt : PyDateTime) : Int :=
  daysFromCivil dt.year dt.month dt.day * 86400
    + Int.ofNat (dt.hour * 3600 + dt.minute * 60 + dt.second)
    - dt.tzOffsetMinutes.getD 0 * 60

/-- The datetime components of an epoch instant in a fixed-offset zone. -/
def pyDateTimeOfEpoch (t : Int) (offMin : Int) : PyDateTime :=
  let localSecs : Int := t + offMin * 60
  let days : Int := Int.fdiv localSecs 86400
  let rem : Nat := (Int.fmod localSecs 86400).toNat
  let ymd := civilFromDays days
  { year := ymd.1, month := ymd.2.1, day := ymd.2.2,
    hour := rem / 3600, minute := rem % 3600 / 60, second := rem % 60,
    tzOffsetMinutes := some offMin }

/-- Model of `dt_obj.astimezone(ZoneInfo("Africa/Lagos"))` for an aware `dt_obj`:
the same instant rendered at the fixed offset UTC+01:00. -/
def astimezoneLagos (dt : PyDateTime) : PyDateTime :=
  pyDateTimeOfEpoch (epochSecsOf dt) 60

/-- Model of the stamping `if dt_obj.tzinfo is None: dt_obj = dt_obj.replace(tzinfo=timezone.utc)`. -/
def ensureUtc (dt : PyDateTime) : PyDateTime :=
  if dt.tzOffsetMinutes.isNone then { dt with tzOffsetMinutes := some 0 } else dt

/-- The `for fmt in ECWID_DATE_FORMATS` loop: try the three patterns in their
fixed order, first success wins. -/
def tryParseDate (s : String) : Option PyDateTime :=
  match strptimeAware s with
  | some dt => some dt
  | none =>
    match strptimeNaive s with
    | some dt => some dt
    | none => strptimeDateOnly s

/-- The function `parse_and_standardize_date` from `ecwid_sync.py`: `None` or the empty
string (both falsy) give `None`; otherwise the first matching pattern's
result, assumed UTC when offset-naive, converted to Africa/Lagos; `None`
when no pattern matches. -/
def parse_and_standardize_date (dateStr : Option String) : Option PyDateTime :=
  match dateStr with
  | none => none
  | some s =>
    if s = "" then none
    else (tryParseDate s).map (fun dt => astimezoneLagos (ensureUtc dt))

/-- Zero-padded two-digit field of `strftime`. -/
def pad2 (n : Nat) : String := if n < 10 then "0" ++ natToDecimal n else natToDecimal n

/-- Zero-padded four-digit year field of `strftime`. -/
def pad4 (n : Nat) : String :=
  if n < 10 then "000" ++ natToDecimal n
  else if n < 100 then "00" ++ natToDecimal n
  else if n < 1000 then "0" ++ natToDecimal n
  else natToDecimal n

/-- Model of `parsed_create_date.strftime("%d-%m-%Y %H:%M:%S")`. -/
def strftimeOutput (dt : PyDateTime) : String :=
  pad2 dt.day ++ "-" ++ pad2 dt.month ++ "-" ++ pad4 dt.year.toNat ++ " "
    ++ pad2 dt.hour ++ ":" ++ pad2 dt.minute ++ ":" ++ pad2 dt.second

/-- The value `formatted_create_date`: the formatted parse result when parsing succeeds,
otherwise the raw value passed through unmodified (lines 177–179). -/
def formattedCreateDate (raw : Option String) : Option String :=
  match parse_and_standardize_date raw with
  | some dt => some (strftimeOutput dt)
  | none => raw

/-! ## Order Flattener (lines 174–218) -/

/-- One output row of the flattened Orders Data sheet, in the fixed schema
`fieldnames_flattened`. -/
structure FlatRow where
  create_date : Option String
  order_number : Option Nat
  product_name : Option String
  category : Option String
  size : Option String
  color : Option String
deriving DecidableEq

/-- One pass of the `for opt in item.get("selectedOptions", [])` body:
normalize the option's name and assign its value to the matching canonical
field, leaving the row unchanged for any other normalized name. -/
def applyOption (row : FlatRow) (opt : SelOption) : FlatRow :=
  let cleaned := normalize_option (opt.name.getD "")
  let value := opt.value
  if cleaned = "color" then { row with color := value }
  else if cleaned = "size" then { row with size := value }
  else if cleaned = "category" then { row with category := value }
  else row

/-- The per-item row construction: shared order fields, the item's name, and
the option-assignment loop folded over `selectedOptions` in order. -/
def flattenItem (cd : Option String) (onum : Option Nat) (item : LineItem) : FlatRow :=
  item.selectedOptions.foldl applyOption
    { create_date := cd, order_number := onum, product_name := item.name,
      category := none, size := none, color := none }

/-- The per-order flattening loop body: an order with falsy `items` yields the
single all-null-product row; otherwise one row per item. -/
def flattenOrder (o : Order) : List FlatRow :=
  let fcd := formattedCreateDate o.createDate
  if o.items.isEmpty then
    [{ create_date := fcd, order_number := o.orderNumber, product_name := none,
       category := none, size := none, color := none }]
  else
    o.items.map (flattenItem fcd o.orderNumber)

/-- The list `new_rows_for_flattened_sheet` built from `new_orders_to_add`. -/
def flattenAll (orders : List Order) : List FlatRow :=
  (orders.map flattenOrder).flatten

/-! ## Incremental Fetcher (lines 104–171) -/

/-- The fixed page size `limit = 100`. -/
def pageLimit : Nat := 100

/-- Model of `orders_worksheet.col_values(...)[1:]`: the order-number column with its
header row dropped. -/
def existingOrderNumbers (column : List String) : List String := column.drop 1

/-- The mode test of line 111: full fetch when the (header-stripped) column is
empty or no cell is a digit string. -/
def isFullFetchMode (ex : List String) : Bool :=
  ex.isEmpty || ex.all (fun num => !pyIsDigit num)

/-- The numeric values of the digit-string cells. -/
def parsedExisting (ex : List String) : List Nat :=
  (ex.filter pyIsDigit).map pyInt

/-- The watermark `last_order_number` (line 137): the maximum, as an integer, over the
digit-string cells.  Only used on columns holding at least one digit string,
where the fold's base 0 is absorbed by the maximum. -/
def lastOrderNumber (ex : List String) : Nat :=
  (parsedExisting ex).foldl max 0

/-- The per-order filter of line 158:
`order.get('orderNumber') and order.get('orderNumber') > last_order_number`
(a missing/null number is falsy, as is 0). -/
def keepOrder (lastSeen : Nat) (o : Order) : Bool :=
  match o.orderNumber with
  | none => false
  | some n => n != 0 && decide (lastSeen < n)

/-- The full-fetch `while True` loop (lines 117–131) over the source's pages
at offsets 0, 100, 200, …, indexed by fuel: `none` means the given fuel was
exhausted before the loop broke.  Every page's orders are accepted
unconditionally; the loop breaks after a page shorter than the page size. -/
def fullFetch (pages : Nat → List Order) : Nat → Nat → Option (List Order)
  | 0, _ => none
  | fuel + 1, i =>
    let orders := pages i
    if orders.length < pageLimit then some orders
    else (fullFetch pages fuel (i + 1)).map (fun rest => orders ++ rest)

/-- The incremental `while True` loop (lines 143–164): break on an empty page;
otherwise retain the page's orders above the watermark, and break after a
short page or a page contributing nothing new. -/
def incrementalFetch (pages : Nat → List Order) (lastSeen : Nat) :
    Nat → Nat → Option (List Order)
  | 0, _ => none
  | fuel + 1, i =>
    let orders := pages i
    if orders.isEmpty then some []
    else
      let newly := orders.filter (keepOrder lastSeen)
      if orders.length < pageLimit || newly.isEmpty then some newly
      else (incrementalFetch pages lastSeen fuel (i + 1)).map (fun rest => newly ++ rest)

/-! ## Row Sanitizer & Sorter (lines 220–246) -/

/-- Model of `clean_dataframe_for_gspread` on one typed row.  The numeric column
`order_number` passes through `pd.to_numeric` (already numeric-or-null here)
with nulls preserved; the plain string columns keep values and nulls; the id
column `product_name` goes through `astype(str)` — which renders a null as
the literal string "None" — followed by `.replace('<NA>', None)`. -/
def sanitizeRow (r : FlatRow) : FlatRow :=
  { r with product_name :=
      match r.product_name with
      | none => some "None"
      | some s => if s = "<NA>" then none else some s }

/-- The pandas ascending sort key order on the numeric-coerced key: numeric
values ascending, nulls (coercion failures) after every numeric value. -/
def optNumLe : Option Nat → Option Nat → Bool
  | some m, some n => decide (m ≤ n)
  | some _, none => true
  | none, some _ => false
  | none, none => true

/-- The sort key comparison on `order_number_sortable`. -/
def rowLe (a b : FlatRow) : Bool :=
  optNumLe a.order_number b.order_number

/-- The comparison `rowLe` as a decidable relation. -/
def rowLeProp (a b : FlatRow) : Prop := rowLe a b = true

instance : DecidableRel rowLeProp :=
  fun a b => inferInstanceAs (Decidable (rowLe a b = true))

/-- Model of `sort_values` on the ascending numeric key, as a
deterministic comparison sort under `rowLe`. -/
def sortRowsByOrderNumber (rows : List FlatRow) : List FlatRow :=
  List.insertionSort rowLeProp rows

/-- The row sequence handed to `append_rows`: flatten, sanitize, sort. -/
def preparedRows (newOrders : List Order) : List FlatRow :=
  sortRowsByOrderNumber ((flattenAll newOrders).map sanitizeRow)

/-! ## Orchestrator (fetch degradation, append, log; lines 104–283) -/

/-- The `try/except` of lines 108–171: a fetch that raised anywhere degrades
`new_orders_to_add` to the empty list. -/
def fetchStageResult (r : Except String (List Order)) : List Order :=
  match r with
  | Except.ok l => l
  | Except.error _ => []

/-- What one run does downstream of the fetch: the rows appended to the
Orders Data sheet (empty list = the guarded `append_rows` call is skipped)
and the log row, which is always written afterwards. -/
structure RunOutcome where
  appendedRows : List FlatRow
  logAppended : Bool
  logMessage : String
deriving DecidableEq

/-- The log entry's description (line 277). -/
def logDescription (n : Nat) : String :=
  "Incremental update completed. Added " ++ natToDecimal n
    ++ " new records to 'Orders Data'."

/-- One run from the fetch outcome onward. -/
def syncRun (fetchResult : Except String (List Order)) : RunOutcome :=
  let rows := preparedRows (fetchStageResult fetchResult)
  { appendedRows := rows, logAppended := true,
    logMessage := logDescription rows.length }

/-- The strings the destination order-number column gains when `rows` are
appended: the decimal rendering of a numeric cell, a blank for a null cell. -/
def appendedNumberCells (rows : List FlatRow) : List String :=
  rows.map (fun r => match r.order_number with | some n => natToDecimal n | none => "")

/-! ## Derived characterizations and concrete inputs used in the statements -/

/-- The last option in the list whose normalized name equals `key`. -/
def lastMatching (key : String) : List SelOption → Option SelOption
  | [] => none
  | o :: os =>
    match lastMatching key os with
    | some x => some x
    | none => if normalize_option (o.name.getD "") = key then some o else none

/-- The value carried by the last option normalizing to `key`, if any. -/
def lastMatchValue (key : String) (opts : List SelOption) : Option String :=
  match lastMatching key opts with
  | some o => o.value
  | none => none

/-- An order with the given number and no items, for the sort example. -/
def bareOrder (n : Nat) : Order :=
  { orderNumber := some n, createDate := none, items := [] }

/-- The spec's sort example: input orders numbered 105, 103, 107. -/
def sortExampleOrders : List Order := [bareOrder 105, bareOrder 103, bareOrder 107]

/-- A two-item order used to instantiate the flattening statements. -/
def twoItemsOrder : Order :=
  { orderNumber := some 8, createDate := none,
    items := [{ name := some "A", selectedOptions := [] },
              { name := some "B", selectedOptions := [] }] }

/-- An order numbered 5 created before the initial-fetch cutoff date. -/
def orderFive : Order :=
  { orderNumber := some 5, createDate := some "2025-03-01 10:00:00", items := [] }

/-- An order numbered 3 created after the initial-fetch cutoff date. -/
def orderThree : Order :=
  { orderNumber := some 3, createDate := some "2025-04-01 10:00:00", items := [] }

/-- The full-fetch view (filtered by `createdFrom`, the 2025-03-17 cutoff) of a
store holding exactly `orderFive` and `orderThree`: only `orderThree` passes
the date filter. -/
def storeFullPages : Nat → List Order := fun i => if i = 0 then [orderThree] else []

/-- The incremental view (all orders, sorted ascending by order number) of the
same unchanged store. -/
def storeIncPages : Nat → List Order :=
  fun i => if i = 0 then [orderThree, orderFive] else []

/-! ## Helper lemmas: decimal rendering round-trips through the column read -/

theorem digitChar_isDigit : ∀ r < 10, (digitChar r).isDigit = true := by decide

theorem digitChar_toNat : ∀ r < 10, (digitChar r).toNat = 48 + r := by decide

theorem foldl_natToDecimalAux (fuel : Nat) :
    ∀ n acc v, n ≤ fuel →
      ∃ p, 0 < p ∧
        List.foldl (fun m c => m * 10 + (c.toNat - 48)) v (natToDecimalAux fuel n acc)
          = List.foldl (fun m c => m * 10 + (c.toNat - 48)) (v * p + n) acc := by
  induction fuel with
  | zero =>
    intro n acc v hn
    have h0 : n = 0 := Nat.le_zero.mp hn
    subst h0
    exact ⟨1, Nat.one_pos, by simp [natToDecimalAux]⟩
  | succ fuel ih =>
    intro n acc v hn
    by_cases h0 : n = 0
    · subst h0
      exact ⟨1, Nat.one_pos, by simp [natToDecimalAux]⟩
    · have hdiv : n / 10 ≤ fuel := by
        have hlt : n / 10 < n := Nat.div_lt_self (Nat.pos_of_ne_zero h0) (by omega)
        omega
      obtain ⟨p1, hp1, heq⟩ := ih (n / 10) (digitChar (n % 10) :: acc) v hdiv
      refine ⟨p1 * 10, by omega, ?_⟩
      simp only [natToDecimalAux, if_neg h0]
      rw [heq, List.foldl_cons]
      have hd := digitChar_toNat (n % 10) (Nat.mod_lt n (by omega))
      rw [hd]
      have h48 : 48 + n % 10 - 48 = n % 10 := by omega
      rw [h48, ← Nat.mul_assoc]
      congr 1
      generalize v * p1 = a
      omega

theorem natToDecimalAux_all_digits (fuel : Nat) :
    ∀ n acc, (∀ c ∈ acc, c.isDigit = true) →
      ∀ c ∈ natToDecimalAux fuel n acc, c.isDigit = true := by
  induction fuel with
  | zero =>
    intro n acc hacc
    simpa [natToDecimalAux] using hacc
  | succ fuel ih =>
    intro n acc hacc
    by_cases h0 : n = 0
    · subst h0
      simpa [natToDecimalAux] using hacc
    · simp only [natToDecimalAux, if_neg h0]
      refine ih _ _ ?_
      intro c hc
      rcases List.mem_cons.mp hc with hc | hc
      · subst hc
        exact digitChar_isDigit (n % 10) (Nat.mod_lt n (by omega))
      · exact hacc c hc

theorem natToDecimalAux_ne_nil (fuel : Nat) :
    ∀ n acc, n ≤ fuel → (0 < n ∨ acc ≠ []) → natToDecimalAux fuel n acc ≠ [] := by
  induction fuel with
  | zero =>
    intro n acc hn h
    have h0 : n = 0 := Nat.le_zero.mp hn
    subst h0
    simpa [natToDecimalAux] using h.resolve_left (by omega)
  | succ fuel ih =>
    intro n acc hn h
    by_cases h0 : n = 0
    · subst h0
      simpa [natToDecimalAux] using h.resolve_left (by omega)
    · simp only [natToDecimalAux, if_neg h0]
      refine ih _ _ ?_ (Or.inr (by simp))
      have hlt : n / 10 < n := Nat.div_lt_self (Nat.pos_of_ne_zero h0) (by omega)
      omega

theorem pyInt_natToDecimal (n : Nat) : pyInt (natToDecimal n) = n := by
  unfold natToDecimal
  by_cases h0 : n = 0
  · subst h0
    decide
  · rw [if_neg h0]
    obtain ⟨p, hp, heq⟩ := foldl_natToDecimalAux n n [] 0 (Nat.le_refl n)
    show List.foldl _ 0 (natToDecimalAux n n []) = n
    rw [heq]
    simp

theorem pyIsDigit_natToDecimal (n : Nat) : pyIsDigit (natToDecimal n) = true := by
  unfold natToDecimal
  by_cases h0 : n = 0
  · subst h0
    decide
  · rw [if_neg h0]
    have hne := natToDecimalAux_ne_nil n n [] (Nat.le_refl n)
      (Or.inl (Nat.pos_of_ne_zero h0))
    have hdig := natToDecimalAux_all_digits n n [] (by intro c hc; cases hc)
    show (!(natToDecimalAux n n []).isEmpty && (natToDecimalAux n n []).all Char.isDigit) = true
    rw [Bool.and_eq_true, List.all_eq_true]
    constructor
    · cases hres : natToDecimalAux n n [] with
      | nil => exact absurd hres hne
      | cons c cs => rfl
    · intro c hc
      exact hdig c hc

/-! ## Helper lemmas: the flattener -/

theorem applyOption_keeps (row : FlatRow) (opt : SelOption) :
    (applyOption row opt).create_date = row.create_date
    ∧ (applyOption row opt).order_number = row.order_number
    ∧ (applyOption row opt).product_name = row.product_name := by
  simp only [applyOption]
  split
  · exact ⟨rfl, rfl, rfl⟩
  · split
    · exact ⟨rfl, rfl, rfl⟩
    · split
      · exact ⟨rfl, rfl, rfl⟩
      · exact ⟨rfl, rfl, rfl⟩

theorem foldl_applyOption_keeps (opts : List SelOption) :
    ∀ row : FlatRow,
      (opts.foldl applyOption row).create_date = row.create_date
      ∧ (opts.foldl applyOption row).order_number = row.order_number
      ∧ (opts.foldl applyOption row).product_name = row.product_name := by
  induction opts with
  | nil => exact fun row => ⟨rfl, rfl, rfl⟩
  | cons o os ih =>
    intro row
    have h := applyOption_keeps row o
    have h2 := ih (applyOption row o)
    simp only [List.foldl_cons]
    exact ⟨h2.1.trans h.1, h2.2.1.trans h.2.1, h2.2.2.trans h.2.2⟩

theorem flattenItem_fixed_fields (cd : Option String) (onum : Option Nat) (item : LineItem) :
    (flattenItem cd onum item).create_date = cd
    ∧ (flattenItem cd onum item).order_number = onum
    ∧ (flattenItem cd onum item).product_name = item.name := by
  unfold flattenItem
  exact foldl_applyOption_keeps item.selectedOptions _

/-- C5: Flattening cardinality: an order with an empty (or absent) `items`
sequence flattens to exactly one row whose product fields are all null; an
order with `N ≥ 1` items flattens to exactly `N` rows, all sharing the
order's formatted `create_date` and its `order_number`. -/
theorem flattening_cardinality (o : Order) :
    (o.items = [] →
      flattenOrder o =
        [{ create_date := formattedCreateDate o.createDate,
           order_number := o.orderNumber, product_name := none,
           category := none, size := none, color := none }])
    ∧ (o.items ≠ [] →
        (flattenOrder o).length = o.items.length
        ∧ ∀ r ∈ flattenOrder o,
            r.create_date = formattedCreateDate o.createDate
            ∧ r.order_number = o.orderNumber) := by
  constructor
  · intro hnil
    unfold flattenOrder
    rw [hnil]
    rfl
  · intro hne
    have hemp : o.items.isEmpty = false := by
      cases hi : o.items with
      | nil => exact absurd hi hne
      | cons a l => rfl
    unfold flattenOrder
    rw [hemp]
    simp only [if_neg Bool.false_ne_true, List.length_map]
    refine ⟨trivial, ?_⟩
    intro r hr
    obtain ⟨item, hitem, hval⟩ := List.mem_map.mp hr
    have h := flattenItem_fixed_fields (formattedCreateDate o.createDate) o.orderNumber item
    rw [← hval]
    exact ⟨h.1, h.2.1⟩

/-- Concrete instances for C5: an order with no items yields one all-null
product row; an order with two items yields two rows sharing its fields. -/
theorem flattening_cardinality_witness :
    flattenOrder { orderNumber := some 7, createDate := none, items := [] }
      = [{ create_date := none, order_number := some 7, product_name := none,
           category := none, size := none, color := none }]
    ∧ (flattenOrder twoItemsOrder).length = 2 := by
  constructor
  · exact (flattening_cardinality
      { orderNumber := some 7, createDate := none, items := [] }).1 rfl
  · exact ((flattening_cardinality twoItemsOrder).2 (by decide)).1

/-! ## Helper lemmas: last-write-wins option assignment -/

theorem applyOption_color (row : FlatRow) (opt : SelOption) :
    (applyOption row opt).color
      = if normalize_option (opt.name.getD "") = "color" then opt.value else row.color := by
  simp only [applyOption]
  by_cases h1 : normalize_option (opt.name.getD "") = "color"
  · rw [if_pos h1, if_pos h1]
  · rw [if_neg h1, if_neg h1]
    by_cases h2 : normalize_option (opt.name.getD "") = "size"
    · rw [if_pos h2]
    · rw [if_neg h2]
      by_cases h3 : normalize_option (opt.name.getD "") = "category"
      · rw [if_pos h3]
      · rw [if_neg h3]

theorem applyOption_size (row : FlatRow) (opt : SelOption) :
    (applyOption row opt).size
      = if normalize_option (opt.name.getD "") = "size" then opt.value else row.size := by
  simp only [applyOption]
  by_cases h1 : normalize_option (opt.name.getD "") = "color"
  · have h2 : ¬normalize_option (opt.name.getD "") = "size" := by
      rw [h1]; decide
    rw [if_pos h1, if_neg h2]
  · rw [if_neg h1]
    by_cases h2 : normalize_option (opt.name.getD "") = "size"
    · rw [if_pos h2, if_pos h2]
    · rw [if_neg h2, if_neg h2]
      by_cases h3 : normalize_option (opt.name.getD "") = "category"
      · rw [if_pos h3]
      · rw [if_neg h3]

theorem applyOption_category (row : FlatRow) (opt : SelOption) :
    (applyOption row opt).category
      = if normalize_option (opt.name.getD "") = "category" then opt.value
        else row.category := by
  simp only [applyOption]
  by_cases h1 : normalize_option (opt.name.getD "") = "color"
  · have h3 : ¬normalize_option (opt.name.getD "") = "category" := by
      rw [h1]; decide
    rw [if_pos h1, if_neg h3]
  · rw [if_neg h1]
    by_cases h2 : normalize_option (opt.name.getD "") = "size"
    · have h3 : ¬normalize_option (opt.name.getD "") = "category" := by
        rw [h2]; decide
      rw [if_pos h2, if_neg h3]
    · rw [if_neg h2]
      by_cases h3 : normalize_option (opt.name.getD "") = "category"
      · rw [if_pos h3, if_pos h3]
      · rw [if_neg h3, if_neg h3]

theorem foldl_applyOption_color (opts : List SelOption) :
    ∀ row : FlatRow,
      (opts.foldl applyOption row).color
        = match lastMatching "color" opts with
          | some o => o.value
          | none => row.color := by
  induction opts with
  | nil => intro row; rfl
  | cons o os ih =>
    intro row
    simp only [List.foldl_cons, lastMatching]
    rw [ih (applyOption row o)]
    cases h : lastMatching "color" os with
    | some x => rfl
    | none =>
      rw [applyOption_color]
      by_cases hc : normalize_option (o.name.getD "") = "color"
      · rw [if_pos hc, if_pos hc]
      · rw [if_neg hc, if_neg hc]

theorem foldl_applyOption_size (opts : List SelOption) :
    ∀ row : FlatRow,
      (opts.foldl applyOption row).size
        = match lastMatching "size" opts with
          | some o => o.value
          | none => row.size := by
  induction opts with
  | nil => intro row; rfl
  | cons o os ih =>
    intro row
    simp only [List.foldl_cons, lastMatching]
    rw [ih (applyOption row o)]
    cases h : lastMatching "size" os with
    | some x => rfl
    | none =>
      rw [applyOption_size]
      by_cases hc : normalize_option (o.name.getD "") = "size"
      · rw [if_pos hc, if_pos hc]
      · rw [if_neg hc, if_neg hc]

theorem foldl_applyOption_category (opts : List SelOption) :
    ∀ row : FlatRow,
      (opts.foldl applyOption row).category
        = match lastMatching "category" opts with
          | some o => o.value
          | none => row.category := by
  induction opts with
  | nil => intro row; rfl
  | cons o os ih =>
    intro row
    simp only [List.foldl_cons, lastMatching]
    rw [ih (applyOption row o)]
    cases h : lastMatching "category" os with
    | some x => rfl
    | none =>
      rw [applyOption_category]
      by_cases hc : normalize_option (o.name.getD "") = "category"
      · rw [if_pos hc, if_pos hc]
      · rw [if_neg hc, if_neg hc]

/-- C6: Option mapping within one item: each of the row fields color, size and
category equals the value carried by the last option (in `selectedOptions`
order) whose normalized name equals that canonical key, or null when none
does; options normalizing to any other key (including designer_category and
thickness) leave the row untouched — the remaining fields are exactly the
shared order fields and the item name. -/
theorem option_mapping (cd : Option String) (onum : Option Nat) (item : LineItem) :
    (flattenItem cd onum item).color = lastMatchValue "color" item.selectedOptions
    ∧ (flattenItem cd onum item).size = lastMatchValue "size" item.selectedOptions
    ∧ (flattenItem cd onum item).category = lastMatchValue "category" item.selectedOptions
    ∧ (flattenItem cd onum item).create_date = cd
    ∧ (flattenItem cd onum item).order_number = onum
    ∧ (flattenItem cd onum item).product_name = item.name := by
  have hf := flattenItem_fixed_fields cd onum item
  refine ⟨?_, ?_, ?_, hf.1, hf.2.1, hf.2.2⟩
  · exact (foldl_applyOption_color item.selectedOptions _).trans rfl
  · exact (foldl_applyOption_size item.selectedOptions _).trans rfl
  · exact (foldl_applyOption_category item.selectedOptions _).trans rfl

/-! ## C1: fetch-mode selection -/

/-- C1 (amended): the run performs a full fetch if and only if the
destination's order-number column (excluding the header) is empty or contains
no digit strings — no cell that Python's `isdigit` accepts, i.e. no cell
parseable as a nonnegative integer.  (A column whose only numeric cell is
"0" holds no *positive* integer yet still selects incremental mode, so the
claim's "positive" is corrected to "nonnegative".) -/
theorem fetch_mode_selection (column : List String) :
    isFullFetchMode (existingOrderNumbers column) = true
      ↔ (existingOrderNumbers column = []
          ∨ ∀ s ∈ existingOrderNumbers column, pyIsDigit s = false) := by
  unfold isFullFetchMode
  rw [Bool.or_eq_true, List.isEmpty_iff, List.all_eq_true]
  constructor
  · rintro (h | h)
    · exact Or.inl h
    · refine Or.inr ?_
      intro s hs
      have hb := h s hs
      rwa [Bool.not_eq_true'] at hb
  · rintro (h | h)
    · exact Or.inl h
    · refine Or.inr ?_
      intro s hs
      rw [Bool.not_eq_true', h s hs]

/-- C1 counterexample: the destination column `["ORDER NO", "0"]` contains no
parseable positive integer, yet the code selects incremental mode rather
than a full fetch. -/
theorem fetch_mode_selection_counterexample :
    (∀ s ∈ existingOrderNumbers ["ORDER NO", "0"],
        ¬(pyIsDigit s = true ∧ 0 < pyInt s))
    ∧ isFullFetchMode (existingOrderNumbers ["ORDER NO", "0"]) = false := by decide

/-- Concrete instance of the amended C1: an all-text column selects full
fetch. -/
theorem fetch_mode_selection_witness :
    isFullFetchMode (existingOrderNumbers ["ORDER NO", "abc"]) = true :=
  (fetch_mode_selection ["ORDER NO", "abc"]).mpr (Or.inr (by decide))

/-! ## Helper lemmas: the watermark and the incremental filter -/

theorem foldl_max_spec (l : List Nat) :
    ∀ a : Nat,
      a ≤ l.foldl max a
      ∧ (∀ v ∈ l, v ≤ l.foldl max a)
      ∧ (l.foldl max a = a ∨ l.foldl max a ∈ l) := by
  induction l with
  | nil =>
    intro a
    exact ⟨Nat.le_refl a, (by intro v hv; cases hv), Or.inl rfl⟩
  | cons x xs ih =>
    intro a
    simp only [List.foldl_cons]
    have h := ih (max a x)
    refine ⟨Nat.le_trans (Nat.le_max_left a x) h.1, ?_, ?_⟩
    · intro v hv
      rcases List.mem_cons.mp hv with hv | hv
      · subst hv
        exact Nat.le_trans (Nat.le_max_right a v) h.1
      · exact h.2.1 v hv
    · rcases h.2.2 with h2 | h2
      · rw [h2]
        rcases Nat.le_total a x with hax | hax
        · rw [Nat.max_eq_right hax]
          exact Or.inr (List.mem_cons_self x xs)
        · rw [Nat.max_eq_left hax]
          exact Or.inl rfl
      · exact Or.inr (List.mem_cons_of_mem x h2)

theorem lastOrderNumber_spec (ex : List String)
    (h : ∃ s ∈ ex, pyIsDigit s = true) :
    lastOrderNumber ex ∈ parsedExisting ex
    ∧ ∀ v ∈ parsedExisting ex, v ≤ lastOrderNumber ex := by
  obtain ⟨s, hs, hd⟩ := h
  have hne : parsedExisting ex ≠ [] := by
    unfold parsedExisting
    intro hcon
    rw [List.map_eq_nil_iff] at hcon
    have hmem : s ∈ ex.filter pyIsDigit := List.mem_filter.mpr ⟨hs, hd⟩
    rw [hcon] at hmem
    cases hmem
  have hspec := foldl_max_spec (parsedExisting ex) 0
  refine ⟨?_, hspec.2.1⟩
  rcases hspec.2.2 with h0 | hmem
  · obtain ⟨y, hy⟩ := List.exists_mem_of_ne_nil _ hne
    have hle := hspec.2.1 y hy
    have hy0 : y = 0 := by
      unfold lastOrderNumber at *
      omega
    show lastOrderNumber ex ∈ parsedExisting ex
    unfold lastOrderNumber
    rw [h0]
    rw [← hy0]
    exact hy
  · exact hmem

theorem parsedExisting_append (a b : List String) :
    parsedExisting (a ++ b) = parsedExisting a ++ parsedExisting b := by
  unfold parsedExisting
  rw [List.filter_append, List.map_append]

theorem lastOrderNumber_le_append (a b : List String) :
    lastOrderNumber a ≤ lastOrderNumber (a ++ b) := by
  unfold lastOrderNumber
  rw [parsedExisting_append, List.foldl_append]
  exact (foldl_max_spec (parsedExisting b) _).1

theorem le_lastOrderNumber_of_mem {ex : List String} {v : Nat}
    (h : v ∈ parsedExisting ex) : v ≤ lastOrderNumber ex :=
  (foldl_max_spec (parsedExisting ex) 0).2.1 v h

theorem keepOrder_eq_true {L : Nat} {o : Order} :
    keepOrder L o = true ↔ ∃ n, o.orderNumber = some n ∧ n ≠ 0 ∧ L < n := by
  unfold keepOrder
  cases h : o.orderNumber with
  | none => simp
  | some n => simp [Bool.and_eq_true, bne_iff_ne, decide_eq_true_eq]

/-- Any successful incremental loop run from page `i` retains exactly the
above-watermark orders of some finite window of consecutive pages. -/
theorem incrementalFetch_characterization (pages : Nat → List Order) (L : Nat) :
    ∀ (fuel i : Nat) (R : List Order),
      incrementalFetch pages L fuel i = some R →
      ∃ m, R = (((List.range' i m).map pages).flatten).filter (keepOrder L) := by
  intro fuel
  induction fuel with
  | zero =>
    intro i R h
    exact absurd h (by simp [incrementalFetch])
  | succ fuel ih =>
    intro i R h
    simp only [incrementalFetch] at h
    by_cases he : (pages i).isEmpty = true
    · rw [if_pos he] at h
      have hR : R = [] := by
        cases h
        rfl
      refine ⟨0, ?_⟩
      rw [hR]
      rfl
    · rw [if_neg he] at h
      by_cases hb : (decide ((pages i).length < pageLimit)
          || ((pages i).filter (keepOrder L)).isEmpty) = true
      · rw [if_pos hb] at h
        have hR : R = (pages i).filter (keepOrder L) := by
          cases h
          rfl
        refine ⟨1, ?_⟩
        rw [hR]
        show (pages i).filter (keepOrder L)
          = ((([i] : List Nat).map pages).flatten).filter (keepOrder L)
        simp
      · rw [if_neg hb] at h
        obtain ⟨rest, hrec, hR⟩ := Option.map_eq_some'.mp h
        obtain ⟨m, hm⟩ := ih (i + 1) rest hrec
        refine ⟨m + 1, ?_⟩
        rw [← hR, hm]
        show (pages i).filter (keepOrder L) ++ _
          = (((List.range' i (m + 1)).map pages).flatten).filter (keepOrder L)
        have hr : List.range' i (m + 1) = i :: List.range' (i + 1) m := rfl
        rw [hr, List.map_cons, List.flatten_cons, List.filter_append]

/-- C2: Incremental-mode filtering: with at least one valid order number in
the destination, the watermark `lastOrderNumber` is the maximum of the
column's numeric values, and a completed incremental fetch retains, from the
window of pages it fetched, exactly the orders whose number is strictly
greater than the watermark — in particular no retained order has a number
less than or equal to it. -/
theorem incremental_filtering (column : List String) (pages : Nat → List Order)
    (fuel : Nat) (R : List Order)
    (hvalid : ∃ s ∈ existingOrderNumbers column, pyIsDigit s = true)
    (hrun : incrementalFetch pages (lastOrderNumber (existingOrderNumbers column)) fuel 0
        = some R) :
    (lastOrderNumber (existingOrderNumbers column)
        ∈ parsedExisting (existingOrderNumbers column)
      ∧ ∀ v ∈ parsedExisting (existingOrderNumbers column),
          v ≤ lastOrderNumber (existingOrderNumbers column))
    ∧ (∃ m, R = (((List.range m).map pages).flatten).filter
        (keepOrder (lastOrderNumber (existingOrderNumbers column))))
    ∧ (∀ o ∈ R, ∃ n, o.orderNumber = some n
        ∧ lastOrderNumber (existingOrderNumbers column) < n) := by
  refine ⟨lastOrderNumber_spec _ hvalid, ?_, ?_⟩
  · obtain ⟨m, hm⟩ := incrementalFetch_characterization pages _ fuel 0 R hrun
    refine ⟨m, ?_⟩
    rwa [List.range_eq_range']
  · intro o ho
    obtain ⟨m, hm⟩ := incrementalFetch_characterization pages _ fuel 0 R hrun
    rw [hm] at ho
    obtain ⟨n, hn, _, hL⟩ := keepOrder_eq_true.mp (List.of_mem_filter ho)
    exact ⟨n, hn, hL⟩

/-- Concrete instance of C2: column `["ORDER NO", "7"]`, a source with no
pages: the watermark 7 is the column's maximum and the run retains nothing. -/
theorem incremental_filtering_witness :
    lastOrderNumber (existingOrderNumbers ["ORDER NO", "7"])
      ∈ parsedExisting (existingOrderNumbers ["ORDER NO", "7"])
    ∧ ∀ o ∈ ([] : List Order), ∃ n, o.orderNumber = some n
        ∧ lastOrderNumber (existingOrderNumbers ["ORDER NO", "7"]) < n := by
  have h := incremental_filtering ["ORDER NO", "7"] (fun _ => []) 1 []
    ⟨"7", by decide, by decide⟩ rfl
  exact ⟨h.1.1, h.2.2⟩

/-! ## Helper lemmas: loop termination -/

theorem fullFetch_none (pages : Nat → List Order)
    (h : ∀ k, pageLimit ≤ (pages k).length) :
    ∀ fuel i, fullFetch pages fuel i = none := by
  intro fuel
  induction fuel with
  | zero => intro i; rfl
  | succ fuel ih =>
    intro i
    simp only [fullFetch]
    rw [if_neg (Nat.not_lt.mpr (h i)), ih (i + 1)]
    rfl

theorem fullFetch_terminates (pages : Nat → List Order) :
    ∀ fuel i k, i ≤ k → k < i + fuel → (pages k).length < pageLimit →
      ∃ R, fullFetch pages fuel i = some R := by
  intro fuel
  induction fuel with
  | zero =>
    intro i k h1 h2 h3
    exact absurd h2 (by omega)
  | succ fuel ih =>
    intro i k h1 h2 h3
    simp only [fullFetch]
    by_cases hi : (pages i).length < pageLimit
    · rw [if_pos hi]
      exact ⟨pages i, rfl⟩
    · rw [if_neg hi]
      have hik : i ≠ k := fun he => hi (he ▸ h3)
      obtain ⟨R, hR⟩ := ih (i + 1) k (by omega) (by omega) h3
      rw [hR]
      exact ⟨pages i ++ R, rfl⟩

theorem incrementalFetch_none (pages : Nat → List Order) (L : Nat)
    (h : ∀ k, pages k ≠ [] ∧ pageLimit ≤ (pages k).length
        ∧ (pages k).filter (keepOrder L) ≠ []) :
    ∀ fuel i, incrementalFetch pages L fuel i = none := by
  intro fuel
  induction fuel with
  | zero => intro i; rfl
  | succ fuel ih =>
    intro i
    simp only [incrementalFetch]
    have he : ¬(pages i).isEmpty = true := by
      rw [List.isEmpty_iff]
      exact (h i).1
    rw [if_neg he]
    have hb : ¬(decide ((pages i).length < pageLimit)
        || ((pages i).filter (keepOrder L)).isEmpty) = true := by
      rw [Bool.or_eq_true, decide_eq_true_eq, List.isEmpty_iff]
      push_neg
      exact ⟨(h i).2.1, (h i).2.2⟩
    rw [if_neg hb, ih (i + 1)]
    rfl

theorem incrementalFetch_terminates (pages : Nat → List Order) (L : Nat) :
    ∀ fuel i k, i ≤ k → k < i + fuel →
      (pages k = [] ∨ (pages k).length < pageLimit
        ∨ (pages k).filter (keepOrder L) = []) →
      ∃ R, incrementalFetch pages L fuel i = some R := by
  intro fuel
  induction fuel with
  | zero =>
    intro i k h1 h2 h3
    exact absurd h2 (by omega)
  | succ fuel ih =>
    intro i k h1 h2 h3
    simp only [incrementalFetch]
    by_cases he : (pages i).isEmpty = true
    · rw [if_pos he]
      exact ⟨[], rfl⟩
    · rw [if_neg he]
      by_cases hb : (decide ((pages i).length < pageLimit)
          || ((pages i).filter (keepOrder L)).isEmpty) = true
      · rw [if_pos hb]
        exact ⟨(pages i).filter (keepOrder L), rfl⟩
      · have hik : i ≠ k := by
          intro heq
          subst heq
          rw [Bool.or_eq_true, decide_eq_true_eq, List.isEmpty_iff] at hb
          rw [List.isEmpty_iff] at he
          push_neg at hb
          rcases h3 with h3 | h3 | h3
          · exact he h3
          · exact absurd h3 (Nat.not_lt.mpr hb.1)
          · exact hb.2 h3
        rw [if_neg hb]
        obtain ⟨R, hR⟩ := ih (i + 1) k (by omega) (by omega) h3
        rw [hR]
        exact ⟨(pages i).filter (keepOrder L) ++ R, rfl⟩

/-- C3: Pagination termination: the full-fetch loop terminates (for some
fuel) exactly when some page is shorter than the fixed page size 100, and the
incremental loop terminates exactly when some page is empty, shorter than the
page size, or yields an empty above-watermark filtered result; whenever such
a page exists, the loops do terminate. -/
theorem pagination_termination (pages : Nat → List Order) (L : Nat) :
    ((∃ fuel R, fullFetch pages fuel 0 = some R)
      ↔ ∃ k, (pages k).length < pageLimit)
    ∧ ((∃ fuel R, incrementalFetch pages L fuel 0 = some R)
      ↔ ∃ k, pages k = [] ∨ (pages k).length < pageLimit
          ∨ (pages k).filter (keepOrder L) = []) := by
  constructor
  · constructor
    · rintro ⟨fuel, R, hR⟩
      by_contra hno
      push_neg at hno
      rw [fullFetch_none pages hno fuel 0] at hR
      exact Option.noConfusion hR
    · rintro ⟨k, hk⟩
      obtain ⟨R, hR⟩ := fullFetch_terminates pages (k + 1) 0 k (Nat.zero_le k) (by omega) hk
      exact ⟨k + 1, R, hR⟩
  · constructor
    · rintro ⟨fuel, R, hR⟩
      by_contra hno
      push_neg at hno
      have h : ∀ k, pages k ≠ [] ∧ pageLimit ≤ (pages k).length
          ∧ (pages k).filter (keepOrder L) ≠ [] := by
        intro k
        have hk := hno k
        exact ⟨hk.1, hk.2.1, hk.2.2⟩
      rw [incrementalFetch_none pages L h fuel 0] at hR
      exact Option.noConfusion hR
    · rintro ⟨k, hk⟩
      obtain ⟨R, hR⟩ :=
        incrementalFetch_terminates pages L (k + 1) 0 k (Nat.zero_le k) (by omega) hk
      exact ⟨k + 1, R, hR⟩

/-- Concrete instance of C3: a source whose every page is empty makes both
loops terminate. -/
theorem pagination_termination_witness :
    (∃ fuel R, fullFetch (fun _ => ([] : List Order)) fuel 0 = some R)
    ∧ (∃ fuel R, incrementalFetch (fun _ => ([] : List Order)) 0 fuel 0 = some R) :=
  ⟨(pagination_termination (fun _ => []) 0).1.mpr ⟨0, by decide⟩,
   (pagination_termination (fun _ => []) 0).2.mpr ⟨0, Or.inl rfl⟩⟩

/-- C10: Implicit edge case of the incremental filter: an order whose
`orderNumber` is absent/null or equal to 0 fails the truthiness test of the
per-order filter, so it is silently excluded — every order retained by a
completed incremental fetch carries a nonzero order number strictly above the
watermark. -/
theorem incremental_truthiness_filter (L : Nat) (pages : Nat → List Order)
    (fuel : Nat) (R : List Order) :
    (∀ o : Order, o.orderNumber = none ∨ o.orderNumber = some 0 →
        keepOrder L o = false)
    ∧ (incrementalFetch pages L fuel 0 = some R →
        ∀ o ∈ R, ∃ n, o.orderNumber = some n ∧ n ≠ 0 ∧ L < n) := by
  constructor
  · intro o ho
    unfold keepOrder
    rcases ho with h | h
    · rw [h]
    · rw [h]
      simp
  · intro hrun o ho
    obtain ⟨m, hm⟩ := incrementalFetch_characterization pages L fuel 0 R hrun
    rw [hm] at ho
    exact keepOrder_eq_true.mp (List.of_mem_filter ho)

/-- Concrete instances of C10: a null and a zero order number are both
dropped; a completed run containing `orderFive` certifies its number. -/
theorem incremental_truthiness_filter_witness :
    keepOrder 3 { orderNumber := none, createDate := none, items := [] } = false
    ∧ keepOrder 3 { orderNumber := some 0, createDate := none, items := [] } = false
    ∧ ∀ o ∈ [orderFive], ∃ n, o.orderNumber = some n ∧ n ≠ 0 ∧ 3 < n := by
  refine ⟨(incremental_truthiness_filter 3 storeIncPages 1 [orderFive]).1 _ (Or.inl rfl),
    (incremental_truthiness_filter 3 storeIncPages 1 [orderFive]).1 _ (Or.inr rfl),
    (incremental_truthiness_filter 3 storeIncPages 1 [orderFive]).2 ?_⟩
  decide

/-! ## Helper lemmas: the second run of an incremental sync -/

/-- If an incremental run with watermark `L` completed with result `R`, then a
rerun over the same pages with a watermark `L2` that dominates `L` and every
number retained in `R` stops at its first page with nothing retained. -/
theorem incrementalFetch_rerun (pages : Nat → List Order) (L L2 : Nat)
    (fuel : Nat) (R : List Order)
    (hL : L ≤ L2)
    (hcov : ∀ o ∈ R, ∀ n, o.orderNumber = some n → n ≤ L2)
    (hrun : incrementalFetch pages L fuel 0 = some R) :
    incrementalFetch pages L2 fuel 0 = some [] := by
  cases fuel with
  | zero => exact absurd hrun (by simp [incrementalFetch])
  | succ fuel =>
    simp only [incrementalFetch] at hrun ⊢
    by_cases he : (pages 0).isEmpty = true
    · rw [if_pos he]
    · rw [if_neg he] at hrun ⊢
      have hnew2 : (pages 0).filter (keepOrder L2) = [] := by
        rw [List.filter_eq_nil_iff]
        intro o ho hk2
        obtain ⟨n, hn, h0, hgt⟩ := keepOrder_eq_true.mp hk2
        have hk1 : keepOrder L o = true := keepOrder_eq_true.mpr ⟨n, hn, h0, by omega⟩
        have hoR : o ∈ R := by
          by_cases hb : (decide ((pages 0).length < pageLimit)
              || ((pages 0).filter (keepOrder L)).isEmpty) = true
          · rw [if_pos hb] at hrun
            cases hrun
            exact List.mem_filter.mpr ⟨ho, hk1⟩
          · rw [if_neg hb] at hrun
            obtain ⟨rest, hrec, hR⟩ := Option.map_eq_some'.mp hrun
            rw [← hR]
            exact List.mem_append_left _ (List.mem_filter.mpr ⟨ho, hk1⟩)
        have hle := hcov o hoR n hn
        omega
      have hb2 : (decide ((pages 0).length < pageLimit)
          || ((pages 0).filter (keepOrder L2)).isEmpty) = true := by
        rw [hnew2]
        simp
      rw [if_pos hb2, hnew2]

theorem flattenOrder_ne_nil (o : Order) : flattenOrder o ≠ [] := by
  unfold flattenOrder
  by_cases hi : o.items.isEmpty = true
  · rw [if_pos hi]
    simp
  · rw [if_neg hi]
    rw [ne_eq, List.map_eq_nil_iff]
    intro hc
    rw [hc] at hi
    exact hi rfl

theorem flattenOrder_order_number {o : Order} {r : FlatRow}
    (h : r ∈ flattenOrder o) : r.order_number = o.orderNumber := by
  unfold flattenOrder at h
  by_cases hi : o.items.isEmpty = true
  · rw [if_pos hi] at h
    have heq := List.mem_singleton.mp h
    subst heq
    rfl
  · rw [if_neg hi] at h
    obtain ⟨item, hitem, hval⟩ := List.mem_map.mp h
    rw [← hval]
    exact (flattenItem_fixed_fields _ _ item).2.1

theorem mem_flattenAll_order_number {orders : List Order} {o : Order}
    (h : o ∈ orders) :
    ∃ r ∈ flattenAll orders, r.order_number = o.orderNumber := by
  obtain ⟨r, hr⟩ := List.exists_mem_of_ne_nil _ (flattenOrder_ne_nil o)
  refine ⟨r, ?_, flattenOrder_order_number hr⟩
  unfold flattenAll
  rw [List.mem_flatten]
  exact ⟨flattenOrder o, List.mem_map_of_mem _ h, hr⟩

theorem sanitizeRow_order_number (r : FlatRow) :
    (sanitizeRow r).order_number = r.order_number := rfl

theorem isFullFetchMode_false_iff (ex : List String) :
    isFullFetchMode ex = false ↔ ∃ s ∈ ex, pyIsDigit s = true := by
  constructor
  · intro h
    unfold isFullFetchMode at h
    rw [Bool.or_eq_false_iff] at h
    obtain ⟨h1, h2⟩ := h
    rw [List.all_eq_false] at h2
    obtain ⟨s, hs, hns⟩ := h2
    refine ⟨s, hs, ?_⟩
    simpa using hns
  · rintro ⟨s, hs, hd⟩
    unfold isFullFetchMode
    rw [Bool.or_eq_false_iff]
    constructor
    · cases hx : ex.isEmpty
      · rfl
      · rw [List.isEmpty_iff] at hx
        rw [hx] at hs
        cases hs
    · rw [List.all_eq_false]
      exact ⟨s, hs, by simp [hd]⟩

theorem existingOrderNumbers_append (column extra : List String)
    (h : column ≠ []) :
    existingOrderNumbers (column ++ extra) = existingOrderNumbers column ++ extra := by
  cases column with
  | nil => exact absurd rfl h
  | cons a l => rfl

/-- C4 (amended): when the completed run is in incremental mode (the
destination already holds at least one digit-string order number) and the
source then gains no new orders, the second run — whose watermark is computed
from the column extended by the appended rows' numbers — retains zero orders,
and hence appends zero rows. -/
theorem incremental_idempotence (column : List String) (pages : Nat → List Order)
    (fuel : Nat) (R : List Order)
    (hmode : isFullFetchMode (existingOrderNumbers column) = false)
    (hrun : incrementalFetch pages (lastOrderNumber (existingOrderNumbers column)) fuel 0
        = some R) :
    isFullFetchMode (existingOrderNumbers
        (column ++ appendedNumberCells (preparedRows R))) = false
    ∧ incrementalFetch pages
        (lastOrderNumber (existingOrderNumbers
          (column ++ appendedNumberCells (preparedRows R)))) fuel 0 = some []
    ∧ preparedRows ([] : List Order) = [] := by
  have hex : ∃ s ∈ existingOrderNumbers column, pyIsDigit s = true :=
    (isFullFetchMode_false_iff _).mp hmode
  have hcolne : column ≠ [] := by
    intro hc
    subst hc
    obtain ⟨s, hs, _⟩ := hex
    cases hs
  rw [existingOrderNumbers_append column _ hcolne]
  refine ⟨?_, ?_, rfl⟩
  · rw [isFullFetchMode_false_iff]
    obtain ⟨s, hs, hd⟩ := hex
    exact ⟨s, List.mem_append_left _ hs, hd⟩
  · refine incrementalFetch_rerun pages _ _ fuel R
      (lastOrderNumber_le_append _ _) ?_ hrun
    intro o hoR n hn
    obtain ⟨r, hr, hrn⟩ := mem_flattenAll_order_number hoR
    have hr2 : sanitizeRow r ∈ preparedRows R := by
      unfold preparedRows sortRowsByOrderNumber
      rw [List.mem_insertionSort]
      exact List.mem_map_of_mem sanitizeRow hr
    have hcell : natToDecimal n ∈ appendedNumberCells (preparedRows R) := by
      unfold appendedNumberCells
      refine List.mem_map.mpr ⟨sanitizeRow r, hr2, ?_⟩
      rw [sanitizeRow_order_number, hrn, hn]
    have hparsed : n ∈ parsedExisting
        (existingOrderNumbers column ++ appendedNumberCells (preparedRows R)) := by
      rw [parsedExisting_append]
      refine List.mem_append_right _ ?_
      unfold parsedExisting
      refine List.mem_map.mpr ⟨natToDecimal n, ?_, pyInt_natToDecimal n⟩
      exact List.mem_filter.mpr ⟨hcell, pyIsDigit_natToDecimal n⟩
    exact le_lastOrderNumber_of_mem hparsed

/-- C4 counterexample, as the claim is universally quantified also over
full-fetch first runs: a store holds order 5 (created before the initial
cutoff date, hence invisible to the date-filtered full fetch) and order 3
(created after it).  With an empty destination, the first run is a full
fetch that retains only order 3 and appends its row; the second run, with
the source unchanged, runs incrementally with watermark 3 and retains order
5 — appending one more row instead of zero. -/
theorem incremental_idempotence_counterexample :
    isFullFetchMode (existingOrderNumbers ["ORDER NO"]) = true
    ∧ fullFetch storeFullPages 1 0 = some [orderThree]
    ∧ appendedNumberCells (preparedRows [orderThree]) = ["3"]
    ∧ isFullFetchMode (existingOrderNumbers ["ORDER NO", "3"]) = false
    ∧ incrementalFetch storeIncPages
        (lastOrderNumber (existingOrderNumbers ["ORDER NO", "3"])) 1 0
        = some [orderFive]
    ∧ (preparedRows [orderFive]).length = 1 := by decide

/-- Concrete instance of the amended C4: incremental first run over an
exhausted source, then an idempotent second run. -/
theorem incremental_idempotence_witness :
    incrementalFetch (fun _ => ([] : List Order))
      (lastOrderNumber (existingOrderNumbers
        (["ORDER NO", "3"] ++ appendedNumberCells (preparedRows [])))) 1 0 = some []
    ∧ preparedRows ([] : List Order) = [] := by
  have h := incremental_idempotence ["ORDER NO", "3"] (fun _ => []) 1 []
    (by decide) rfl
  exact ⟨h.2.1, h.2.2⟩

/-! ## C7: output ordering -/

theorem optNumLe_total (x y : Option Nat) : optNumLe x y = true ∨ optNumLe y x = true := by
  cases x with
  | none =>
    cases y with
    | none => exact Or.inl rfl
    | some n => exact Or.inr rfl
  | some m =>
    cases y with
    | none => exact Or.inl rfl
    | some n =>
      unfold optNumLe
      rcases Nat.le_total m n with h | h
      · exact Or.inl (by simpa using h)
      · exact Or.inr (by simpa using h)

theorem optNumLe_trans {x y z : Option Nat}
    (hxy : optNumLe x y = true) (hyz : optNumLe y z = true) : optNumLe x z = true := by
  cases x with
  | none =>
    cases y with
    | none =>
      cases z with
      | none => rfl
      | some n => exact absurd hyz (by simp [optNumLe])
    | some n => exact absurd hxy (by simp [optNumLe])
  | some m =>
    cases z with
    | none => rfl
    | some k =>
      cases y with
      | none => exact absurd hyz (by simp [optNumLe])
      | some n =>
        simp only [optNumLe, decide_eq_true_eq] at hxy hyz ⊢
        omega

/-- C7: Output ordering: the sanitized row sequence handed to the destination
append is a permutation of the sanitized flat rows, pairwise ordered
ascending by the numeric `order_number` key with null keys placed after all
numeric keys; and on the spec's example — orders numbered 105, 103, 107 —
the prepared output carries the numbers 103, 105, 107 in that order. -/
theorem output_ordering :
    (∀ rows : List FlatRow,
      List.Perm (sortRowsByOrderNumber rows) rows
      ∧ (sortRowsByOrderNumber rows).Pairwise rowLeProp
      ∧ (sortRowsByOrderNumber rows).Pairwise
          (fun a b => a.order_number = none → b.order_number = none))
    ∧ (preparedRows sortExampleOrders).map (fun r => r.order_number)
        = [some 103, some 105, some 107] := by
  constructor
  · intro rows
    haveI htot : IsTotal FlatRow rowLeProp :=
      ⟨fun a b => optNumLe_total a.order_number b.order_number⟩
    haveI htr : IsTrans FlatRow rowLeProp :=
      ⟨fun a b c hab hbc => optNumLe_trans hab hbc⟩
    refine ⟨List.perm_insertionSort rowLeProp rows,
      List.sorted_insertionSort rowLeProp rows, ?_⟩
    refine List.Pairwise.imp ?_ (List.sorted_insertionSort rowLeProp rows)
    intro a b hab hnone
    unfold rowLeProp rowLe at hab
    rw [hnone] at hab
    cases hob : b.order_number with
    | none => rfl
    | some n =>
      rw [hob] at hab
      exact absurd hab (by simp [optNumLe])
  · decide

/-- Concrete instance of C7's ordering on the spec's example. -/
theorem output_ordering_witness :
    (preparedRows sortExampleOrders).map (fun r => r.order_number)
      = [some 103, some 105, some 107] :=
  output_ordering.2

/-! ## C8: fetch failure degradation -/

/-- C8: Fetch failure degradation: when any transport or parsing error occurs
during the fetch stage, the run does not abort — the set of new orders
degrades to empty, the destination append stage appends nothing, and the log
stage still executes, recording zero added records. -/
theorem fetch_failure_degradation (e : String) :
    fetchStageResult (Except.error e) = []
    ∧ (syncRun (Except.error e)).appendedRows = []
    ∧ (syncRun (Except.error e)).logAppended = true
    ∧ (syncRun (Except.error e)).logMessage = logDescription 0 :=
  ⟨rfl, rfl, rfl, rfl⟩

/-! ## C9: date normalization contract -/

/-- C9: Date normalization contract: `parse_and_standardize_date` returns
null (never an error) on a null or empty input and whenever none of the
three fixed, ordered patterns matches; when a pattern matches, an
offset-naive result is first stamped UTC and the result is converted to the
fixed target zone (whose offset the converted value carries); and on a null
parse the caller passes the raw value through unmodified into the row's
`create_date`. -/
theorem date_normalization_contract :
    parse_and_standardize_date none = none
    ∧ parse_and_standardize_date (some "") = none
    ∧ (∀ s, tryParseDate s = none → parse_and_standardize_date (some s) = none)
    ∧ (∀ s dt, tryParseDate s = some dt →
        parse_and_standardize_date (some s) = some (astimezoneLagos (ensureUtc dt)))
    ∧ (∀ s dt, tryParseDate s = some dt → dt.tzOffsetMinutes = none →
        parse_and_standardize_date (some s)
          = some (astimezoneLagos { dt with tzOffsetMinutes := some 0 }))
    ∧ (∀ dt, (astimezoneLagos dt).tzOffsetMinutes = some 60)
    ∧ (∀ raw, parse_and_standardize_date raw = none → formattedCreateDate raw = raw) := by
  have hsome : ∀ s dt, tryParseDate s = some dt →
      parse_and_standardize_date (some s) = some (astimezoneLagos (ensureUtc dt)) := by
    intro s dt h
    by_cases hs : s = ""
    · subst hs
      have hnone : tryParseDate "" = none := rfl
      rw [hnone] at h
      exact Option.noConfusion h
    · show (if s = "" then none
          else (tryParseDate s).map (fun dt => astimezoneLagos (ensureUtc dt)))
        = some (astimezoneLagos (ensureUtc dt))
      rw [if_neg hs, h]
      rfl
  refine ⟨rfl, rfl, ?_, hsome, ?_, fun dt => rfl, ?_⟩
  · intro s h
    by_cases hs : s = ""
    · subst hs
      rfl
    · show (if s = "" then none
          else (tryParseDate s).map (fun dt => astimezoneLagos (ensureUtc dt)))
        = none
      rw [if_neg hs, h]
      rfl
  · intro s dt h htz
    have := hsome s dt h
    rwa [show ensureUtc dt = { dt with tzOffsetMinutes := some 0 } from by
      unfold ensureUtc
      rw [htz]
      rfl] at this
  · intro raw h
    cases raw with
    | none => rfl
    | some s =>
      unfold formattedCreateDate
      rw [h]

/-- Concrete instances of C9: an unparsable string maps to null and is passed
through raw; the spec's example `"2025-04-01 10:00:00"` (naive, assumed UTC)
converts to 11:00 at the fixed +01:00 zone. -/
theorem date_normalization_contract_witness :
    parse_and_standardize_date (some "not a date") = none
    ∧ parse_and_standardize_date (some "2025-04-01 10:00:00")
        = some { year := 2025, month := 4, day := 1, hour := 11, minute := 0,
                 second := 0, tzOffsetMinutes := some 60 }
    ∧ formattedCreateDate (some "not a date") = some "not a date" := by
  refine ⟨date_normalization_contract.2.2.1 "not a date" (by decide), ?_, ?_⟩
  · have h := date_normalization_contract.2.2.2.2.1 "2025-04-01 10:00:00"
      { year := 2025, month := 4, day := 1, hour := 10, minute := 0, second := 0,
        tzOffsetMinutes := none } (by decide) rfl
    rw [h]
    decide
  · exact date_normalization_contract.2.2.2.2.2.2 (some "not a date") (by decide)

end EcwidSync
